import Mathlib

/-!
# s3explorer: viewport and selection engine

A shallow embedding of `ui_objects.go`: the height computation
(`GetStringListHeight` and its two siblings), the fitness gate `HaveTermSpace`,
the windowed list builder `GetDirectoryDisplayListing`, the name truncation
`TruncateFilename` and the two list assemblies `CreateBucketList` and
`CreateDirectoryList`.

Modelling conventions.

* A Go `string` is a sequence of bytes (`GoString`); `len` counts bytes and a
  slice expression cuts at byte offsets.
* Go `int` values are mathematical integers. The only arithmetic in the file is
  `len(x) + 2`, `TermHeight() - LOWER_BUFFER`, `selection + 2`, `selection - 2`,
  `TermWidth()/4 - 3` and `TermWidth()/2 - len(x)` on terminal dimensions,
  collection lengths and indices into collections, none of which approaches the
  64-bit range. Go's `/` on `int` truncates toward zero (`Int.tdiv`).
* A run-time panic (slice bounds out of range, nil dereference, negative
  repeat count) is an explicit `Except.error`; a Go `error` result is an
  `Option String` beside the other result.
* `termui.TermHeight()`, `termui.TermWidth()` and the constants `LOWER_BUFFER`
  and `RIGHT_BUFFER` (declared in another file of the package) are read from a
  context `Ctx`; the terminal is taken not to be resized during one call.
* `log.Println`, `termui.Render` and `time.Sleep` have no effect on the values
  computed; the message handed to `RenderError` is recorded in the result.
-/

namespace S3Explorer

/-- A Go string: its bytes. -/
abbrev GoString := List UInt8

/-- The bytes of an ASCII string literal of the source. -/
def ascii (s : String) : GoString :=
  s.toList.map (fun ch => UInt8.ofNat ch.toNat)

/-- The run-time panics the code of `ui_objects.go` can raise. -/
inductive Panic where
  | sliceBounds
  | nilDereference
  | negativeRepeat
  deriving DecidableEq, Repr

/-- The terminal dimensions reported by termui and the two layout constants of
the package. -/
structure Ctx where
  TermWidth : Int
  TermHeight : Int
  LOWER_BUFFER : Int
  RIGHT_BUFFER : Int
  deriving DecidableEq, Repr

/-- Go `len(x)` as an `int`. -/
def len {α : Type} (xs : List α) : Int := (xs.length : Int)

/-- Go `s[:high]` on a string: panics unless `0 <= high <= len(s)`. -/
def sliceTo {α : Type} (s : List α) (high : Int) : Except Panic (List α) :=
  if 0 ≤ high ∧ high ≤ len s then .ok (s.take high.toNat) else .error .sliceBounds

/-- Go `s[low:]` on a slice: panics unless `0 <= low <= len(s)`. -/
def sliceFrom {α : Type} (s : List α) (low : Int) : Except Panic (List α) :=
  if 0 ≤ low ∧ low ≤ len s then .ok (s.drop low.toNat) else .error .sliceBounds

/-- Go `strings.Repeat(s, count)`: panics on a negative count. -/
def Repeat (s : GoString) (count : Int) : Except Panic GoString :=
  if count < 0 then .error .negativeRepeat
  else .ok ((List.replicate count.toNat s).flatten)

/-- The decimal digit `d` (below ten) as an ASCII byte. -/
def digitByte (d : Nat) : UInt8 := UInt8.ofNat (48 + d)

/-- Decimal digits of `n`, most significant first, in front of `acc`; `fuel`
bounds the number of digits produced. -/
def formatNatAux : Nat → Nat → GoString → GoString
  | 0, _, acc => acc
  | fuel + 1, n, acc =>
    if n < 10 then digitByte n :: acc
    else formatNatAux fuel (n / 10) (digitByte (n % 10) :: acc)

/-- Decimal rendering of a natural number. -/
def formatNat (n : Nat) : GoString := formatNatAux (n + 1) n []

/-- The verb `%v` of `fmt.Sprintf` on an `int`: base ten, a leading `-` when
negative. -/
def formatInt : Int → GoString
  | Int.ofNat n => formatNat n
  | Int.negSucc n => 45 :: formatNat (n + 1)

/-- The line `fmt.Sprintf("[[%v] %s](bg-blue)", index, obj)`. -/
def highlightedLine (index : Int) (obj : GoString) : GoString :=
  ascii "[[" ++ formatInt index ++ ascii "] " ++ obj ++ ascii "](bg-blue)"

/-- The line `fmt.Sprintf("[%v] %s", index, obj)`. -/
def plainLine (index : Int) (obj : GoString) : GoString :=
  ascii "[" ++ formatInt index ++ ascii "] " ++ obj

/-- The function `HaveTermSpace`: false when `maxHeight < 2` (a warning is logged), true
otherwise. -/
def HaveTermSpace (maxHeight : Int) : Bool :=
  if maxHeight < 2 then false else true

/-- Modelled from the spec: the type `Node` is declared in another file of the
package. A node entry has a display string, an is-directory flag
(`node.Info.IsDir`) and an optional size (`node.S3Object.Size`, a pointer that
may be nil). -/
structure Node where
  DisplayString : GoString
  IsDir : Bool
  Size : Option Int
  deriving DecidableEq, Repr

/-- Modelled from the spec: the type `BucketWithDisplay` is declared in another
file of the package. A bucket entry has a name and a display string. -/
structure BucketWithDisplay where
  name : GoString
  displayString : GoString
  deriving DecidableEq, Repr

/-- The function `GetNodeListHeight`: the height available to list a section of nodes. -/
def GetNodeListHeight (c : Ctx) (nodes : List Node) : Int :=
  let max := c.TermHeight - c.LOWER_BUFFER
  if len nodes + 2 < max then len nodes + 2 else max

/-- The function `GetBucketListHeight`: the height available to list a section of
buckets. -/
def GetBucketListHeight (c : Ctx) (buckets : List BucketWithDisplay) : Int :=
  let max := c.TermHeight - c.LOWER_BUFFER
  if len buckets + 2 < max then len buckets + 2 else max

/-- The function `GetStringListHeight`: the height available to list a section of
strings. -/
def GetStringListHeight (c : Ctx) (strings : List GoString) : Int :=
  let max := c.TermHeight - c.LOWER_BUFFER
  if len strings + 2 < max then len strings + 2 else max

/-- The function `TruncateFilename`: the truncated name and the number of spaces up to the
size column. -/
def TruncateFilename (c : Ctx) (filename : GoString) : Except Panic (GoString × Int) :=
  if len filename ≥ c.TermWidth.tdiv 4 then
    match sliceTo filename (c.TermWidth.tdiv 4 - 3) with
    | .error p => .error p
    | .ok head =>
      let truncated := head ++ ascii "..."
      .ok (truncated, c.TermWidth.tdiv 2 - len truncated)
  else
    .ok (filename, c.TermWidth.tdiv 2 - len filename)

/-- The labelling loop of `GetDirectoryDisplayListing`: one line per object,
appended to `listing`, the running `index` compared with `selection`. -/
def labelLoop (selection : Int) : List GoString → Int → List GoString → List GoString
  | [], _, listing => listing
  | obj :: rest, index, listing =>
    if index = selection then
      labelLoop selection rest (index + 1) (listing ++ [highlightedLine index obj])
    else
      labelLoop selection rest (index + 1) (listing ++ [plainLine index obj])

/-- The message of the error `GetDirectoryDisplayListing` returns. -/
def errExpandHeight : String := "Please expand the height of your terminal"

/-- The function `GetDirectoryDisplayListing`: the named results `(listing, err)`, or a
panic. The bare `return` of the error path returns `listing` as the loop left
it. -/
def GetDirectoryDisplayListing (c : Ctx) (objects : List GoString) (selection : Int) :
    Except Panic (List GoString × Option String) :=
  let listing := labelLoop selection objects 0 []
  let maxHeight := GetStringListHeight c objects
  if !HaveTermSpace maxHeight then
    .ok (listing, some errExpandHeight)
  else if len listing > 0 then
    if maxHeight ≤ selection + 2 then
      match sliceFrom listing (selection - 2) with
      | .error p => .error p
      | .ok window => .ok (window, none)
    else .ok (listing, none)
  else .ok (listing, none)

/-- The colours of termui the file uses. -/
inductive Color where
  | default
  | yellow
  deriving DecidableEq, Repr

/-- The fields of `termui.List` that `ui_objects.go` assigns. -/
structure TermuiList where
  Items : List GoString
  ItemFgColor : Color
  BorderLabel : GoString
  Height : Int
  Width : Int
  Y : Int
  deriving DecidableEq, Repr

/-- The zero value `&termui.List{}`. -/
def TermuiList.zero : TermuiList := ⟨[], Color.default, [], 0, 0, 0⟩

/-- What a list assembly hands back: the list, and the message it passed to
`RenderError`, if any. -/
structure Assembled where
  list : TermuiList
  rendered : Option String
  deriving DecidableEq, Repr

/-- The function `CreateBucketList`. -/
def CreateBucketList (c : Ctx) (buckets : List BucketWithDisplay) (selection : Int) :
    Except Panic Assembled :=
  let displayStrings := buckets.foldl (fun acc bucket => acc ++ [bucket.displayString]) []
  match GetDirectoryDisplayListing c displayStrings selection with
  | .error p => .error p
  | .ok (_, some err) => .ok ⟨TermuiList.zero, some err⟩
  | .ok (listing, none) =>
    .ok ⟨⟨listing, Color.yellow, ascii "S3 Buckets", GetBucketListHeight c buckets,
      c.TermWidth - c.RIGHT_BUFFER, 0⟩, none⟩

/-- The display string `CreateDirectoryList` builds for one node.
`ByteFormat sz` stands for `ByteFormat(float64(sz), 1)` of the package's size
formatter, which is declared in another file. -/
def nodeDisplay (c : Ctx) (ByteFormat : Int → GoString) (node : Node) : Except Panic GoString :=
  if !node.IsDir then
    match TruncateFilename c node.DisplayString with
    | .error p => .error p
    | .ok (file, space) =>
      match Repeat (ascii " ") space with
      | .error p => .error p
      | .ok pad =>
        match node.Size with
        | none => .error .nilDereference
        | some sz => .ok (file ++ pad ++ ByteFormat sz)
  else .ok node.DisplayString

/-- The first loop of `CreateDirectoryList`: the display strings of the nodes,
appended to `displayStrings`. -/
def displayLoop (c : Ctx) (ByteFormat : Int → GoString) :
    List Node → List GoString → Except Panic (List GoString)
  | [], displayStrings => .ok displayStrings
  | node :: rest, displayStrings =>
    match nodeDisplay c ByteFormat node with
    | .error p => .error p
    | .ok display => displayLoop c ByteFormat rest (displayStrings ++ [display])

/-- The function `CreateDirectoryList`. -/
def CreateDirectoryList (c : Ctx) (ByteFormat : Int → GoString) (title : GoString)
    (nodes : List Node) (selection : Int) : Except Panic Assembled :=
  match displayLoop c ByteFormat nodes [] with
  | .error p => .error p
  | .ok displayStrings =>
    match GetDirectoryDisplayListing c displayStrings selection with
    | .error p => .error p
    | .ok (_, some err) => .ok ⟨TermuiList.zero, some err⟩
    | .ok (listing, none) =>
      .ok ⟨⟨listing, Color.yellow, title, GetNodeListHeight c nodes,
        c.TermWidth - c.RIGHT_BUFFER, 0⟩, none⟩

/-- The labelled line of the object at `index`, as the loop of
`GetDirectoryDisplayListing` builds it. -/
def labelOf (selection : Int) (index : Nat) (obj : GoString) : GoString :=
  if (index : Int) = selection then highlightedLine index obj else plainLine index obj

/-- The full labelled-line sequence of `objects`, numbered from `start`. -/
def labelled (selection : Int) : Nat → List GoString → List GoString
  | _, [] => []
  | start, obj :: rest => labelOf selection start obj :: labelled selection (start + 1) rest

/-- A line has the highlighted form when it is `[[i] s](bg-blue)` for some
index `i` and string `s`. -/
def IsHighlighted (line : GoString) : Prop :=
  ∃ (i : Int) (s : GoString), line = highlightedLine i s

/-- A line has the unhighlighted form when it is `[i] s` for some index
`i ≥ 0` and string `s`. -/
def IsPlain (line : GoString) : Prop :=
  ∃ (i : Nat) (s : GoString), line = plainLine i s

/-- An example collection of four display strings. -/
def fourEntries : List GoString := [ascii "a", ascii "b", ascii "c", ascii "d"]

/-- An example collection of ten display strings. -/
def tenEntries : List GoString :=
  [ascii "e0", ascii "e1", ascii "e2", ascii "e3", ascii "e4",
   ascii "e5", ascii "e6", ascii "e7", ascii "e8", ascii "e9"]

/-- An example size formatter standing for `ByteFormat`: the decimal byte count
followed by ` B`. -/
def exampleByteFormat (sz : Int) : GoString := formatInt sz ++ ascii " B"

/-- An example file node: a 26-byte name and a size of 1234 bytes. -/
def exampleFile : Node := ⟨ascii "abcdefghijklmnopqrstuvwxyz", false, some 1234⟩

/-- An example directory node. -/
def exampleDir : Node := ⟨ascii "photos/", true, none⟩

/-- An example collection of two buckets. -/
def exampleBuckets : List BucketWithDisplay :=
  [⟨ascii "logs", ascii "logs"⟩, ⟨ascii "media", ascii "media"⟩]

/-- An example collection of eleven file nodes, each named `f` with a size of
one byte. -/
def elevenFiles : List Node := List.replicate 11 ⟨ascii "f", false, some 1⟩

/-! ## Auxiliary facts -/

theorem len_eq_length {α : Type} (xs : List α) : len xs = (xs.length : Int) := rfl

theorem len_nonneg {α : Type} (xs : List α) : 0 ≤ len xs := by
  unfold len; omega

theorem labelled_length (sel : Int) :
    ∀ (objs : List GoString) (n : Nat), (labelled sel n objs).length = objs.length := by
  intro objs
  induction objs with
  | nil => intro n; rfl
  | cons o rest ih => intro n; simp [labelled, ih]

theorem labelled_getElem? (sel : Int) :
    ∀ (objs : List GoString) (n j : Nat),
      (labelled sel n objs)[j]? = (objs[j]?).map (labelOf sel (n + j)) := by
  intro objs
  induction objs with
  | nil => intro n j; simp [labelled]
  | cons o rest ih =>
    intro n j
    cases j with
    | zero => simp [labelled]
    | succ k =>
      simp only [labelled, List.getElem?_cons_succ, ih]
      have h : n + 1 + k = n + (k + 1) := by omega
      rw [h]

theorem labelled_drop (sel : Int) :
    ∀ (objs : List GoString) (n k : Nat),
      (labelled sel n objs).drop k = labelled sel (n + k) (objs.drop k) := by
  intro objs
  induction objs with
  | nil => intro n k; simp [labelled]
  | cons o rest ih =>
    intro n k
    cases k with
    | zero => simp [labelled]
    | succ k =>
      simp only [labelled, List.drop_succ_cons, ih]
      have h : n + 1 + k = n + (k + 1) := by omega
      rw [h]

theorem labelLoop_eq (sel : Int) :
    ∀ (objs : List GoString) (n : Nat) (acc : List GoString),
      labelLoop sel objs (n : Int) acc = acc ++ labelled sel n objs := by
  intro objs
  induction objs with
  | nil => intro n acc; simp [labelLoop, labelled]
  | cons o rest ih =>
    intro n acc
    have hcast : (n : Int) + 1 = ((n + 1 : Nat) : Int) := by push_cast; rfl
    simp only [labelLoop, labelled, labelOf]
    split
    · rw [hcast, ih]; simp
    · rw [hcast, ih]; simp

theorem labelLoop_zero (sel : Int) (objs : List GoString) :
    labelLoop sel objs 0 [] = labelled sel 0 objs := by
  have h := labelLoop_eq sel objs 0 []
  simpa using h

theorem HaveTermSpace_false_iff (h : Int) : HaveTermSpace h = false ↔ h < 2 := by
  unfold HaveTermSpace
  split <;> simp [*]

theorem GetStringListHeight_eq_min (c : Ctx) (strings : List GoString) :
    GetStringListHeight c strings = min (len strings + 2) (c.TermHeight - c.LOWER_BUFFER) := by
  unfold GetStringListHeight
  simp only
  split
  · rw [min_eq_left]; omega
  · rw [min_eq_right]; omega

/-- The three outcomes of `GetDirectoryDisplayListing`, by the computed height
and the position of the selection. -/
theorem GetDirectoryDisplayListing_eq (c : Ctx) (objs : List GoString) (sel : Int) :
    GetDirectoryDisplayListing c objs sel =
      if GetStringListHeight c objs < 2 then
        .ok (labelled sel 0 objs, some errExpandHeight)
      else if objs ≠ [] ∧ GetStringListHeight c objs ≤ sel + 2 then
        if 0 ≤ sel - 2 ∧ sel - 2 ≤ len objs then
          .ok ((labelled sel 0 objs).drop (sel - 2).toNat, none)
        else .error .sliceBounds
      else .ok (labelled sel 0 objs, none) := by
  unfold GetDirectoryDisplayListing
  simp only [labelLoop_zero]
  by_cases h2 : GetStringListHeight c objs < 2
  · simp [HaveTermSpace, h2]
  · have hlen : len (labelled sel 0 objs) = len objs := by
      simp [len, labelled_length]
    simp only [HaveTermSpace, h2, if_false, hlen]
    by_cases hne : objs = []
    · subst hne
      simp [len, labelled]
    · have hpos : len objs > 0 := by
        cases objs with
        | nil => exact absurd rfl hne
        | cons o r => simp [len]
      by_cases hs : GetStringListHeight c objs ≤ sel + 2
      · simp only [hpos, hs, hne, if_true, not_false_eq_true, and_self, ne_eq]
        have hsl : sliceFrom (labelled sel 0 objs) (sel - 2) =
            if 0 ≤ sel - 2 ∧ sel - 2 ≤ len objs then
              .ok ((labelled sel 0 objs).drop (sel - 2).toNat)
            else .error .sliceBounds := by
          unfold sliceFrom
          rw [hlen]
        rw [hsl]
        by_cases hb : 0 ≤ sel - 2 ∧ sel - 2 ≤ len objs
        · rw [if_pos hb, if_pos hb]; rfl
        · rw [if_neg hb, if_neg hb]; rfl
      · simp [hpos, hs, hne]

theorem digitByte_ne_bracket (d : Nat) (h : d < 10) : digitByte d ≠ 91 := by
  unfold digitByte
  interval_cases d <;> decide

theorem formatNatAux_head :
    ∀ (fuel n : Nat) (acc : GoString),
      ∃ d tl, d < 10 ∧ formatNatAux (fuel + 1) n acc = digitByte d :: tl := by
  intro fuel
  induction fuel with
  | zero =>
    intro n acc
    by_cases h : n < 10
    · exact ⟨n, acc, h, by simp [formatNatAux, h]⟩
    · exact ⟨n % 10, acc, Nat.mod_lt _ (by decide), by simp [formatNatAux, h]⟩
  | succ f ih =>
    intro n acc
    by_cases h : n < 10
    · exact ⟨n, acc, h, by simp [formatNatAux, h]⟩
    · obtain ⟨d, tl, hd, htl⟩ := ih (n / 10) (digitByte (n % 10) :: acc)
      refine ⟨d, tl, hd, ?_⟩
      rw [← htl]
      conv_lhs => unfold formatNatAux
      simp [h]

theorem formatNat_head (n : Nat) : ∃ d tl, d < 10 ∧ formatNat n = digitByte d :: tl :=
  formatNatAux_head n n []

theorem plainLine_ne_highlightedLine (i : Nat) (s : GoString) (j : Int) (t : GoString) :
    plainLine (i : Int) s ≠ highlightedLine j t := by
  intro h
  obtain ⟨d, tl, hd, htl⟩ := formatNat_head i
  have h1 : formatInt (i : Int) = formatNat i := rfl
  have hb1 : ascii "[" = [91] := by decide
  have hb2 : ascii "[[" = [91, 91] := by decide
  unfold plainLine highlightedLine at h
  rw [h1, htl, hb1, hb2] at h
  simp only [List.cons_append, List.nil_append, List.cons.injEq, true_and] at h
  exact digitByte_ne_bracket d hd h.1

theorem plain_not_highlighted (line : GoString) (h : IsPlain line) : ¬ IsHighlighted line := by
  obtain ⟨i, s, rfl⟩ := h
  rintro ⟨j, t, hjt⟩
  exact plainLine_ne_highlightedLine i s j t hjt

/-- A listing returned without error is the labelled sequence from some start
`k`: the whole of it (`k = 0`), or, when the computed height is at most
`sel + 2`, its suffix from `sel - 2`. -/
theorem GetDirectoryDisplayListing_ok_window (c : Ctx) (objs : List GoString) (sel : Int)
    (listing : List GoString)
    (h : GetDirectoryDisplayListing c objs sel = .ok (listing, none)) :
    2 ≤ GetStringListHeight c objs ∧
    ((¬ (objs ≠ [] ∧ GetStringListHeight c objs ≤ sel + 2) ∧ listing = labelled sel 0 objs) ∨
     ((objs ≠ [] ∧ GetStringListHeight c objs ≤ sel + 2) ∧ 2 ≤ sel ∧ sel - 2 ≤ len objs ∧
        listing = (labelled sel 0 objs).drop (sel - 2).toNat)) := by
  rw [GetDirectoryDisplayListing_eq] at h
  by_cases h2 : GetStringListHeight c objs < 2
  · rw [if_pos h2] at h
    simp at h
  · rw [if_neg h2] at h
    refine ⟨by omega, ?_⟩
    by_cases hs : objs ≠ [] ∧ GetStringListHeight c objs ≤ sel + 2
    · rw [if_pos hs] at h
      by_cases hb : 0 ≤ sel - 2 ∧ sel - 2 ≤ len objs
      · rw [if_pos hb] at h
        right
        refine ⟨hs, by omega, hb.2, ?_⟩
        simp only [Except.ok.injEq, Prod.mk.injEq, and_true] at h
        exact h.symm
      · rw [if_neg hb] at h
        simp at h
    · rw [if_neg hs] at h
      left
      refine ⟨hs, ?_⟩
      simp only [Except.ok.injEq, Prod.mk.injEq, and_true] at h
      exact h.symm

/-- What an error result of `GetDirectoryDisplayListing` tells: the computed
height is below 2, the error is the terminal-too-small one and the listing
beside it is the full labelled sequence. -/
theorem GetDirectoryDisplayListing_error_inv (c : Ctx) (objs : List GoString) (sel : Int)
    (listing : List GoString) (e : String)
    (h : GetDirectoryDisplayListing c objs sel = .ok (listing, some e)) :
    GetStringListHeight c objs < 2 ∧ e = errExpandHeight ∧ listing = labelled sel 0 objs := by
  rw [GetDirectoryDisplayListing_eq] at h
  by_cases h2 : GetStringListHeight c objs < 2
  · rw [if_pos h2] at h
    simp only [Except.ok.injEq, Prod.mk.injEq, Option.some.injEq] at h
    exact ⟨h2, h.2.symm, h.1.symm⟩
  · rw [if_neg h2] at h
    exfalso
    split at h
    · split at h <;> simp at h
    · simp at h

theorem bucket_displayStrings_eq (buckets : List BucketWithDisplay) :
    ∀ acc : List GoString,
      buckets.foldl (fun acc bucket => acc ++ [bucket.displayString]) acc =
        acc ++ buckets.map (fun bucket => bucket.displayString) := by
  induction buckets with
  | nil => intro acc; simp
  | cons b rest ih => intro acc; simp [List.foldl_cons, ih]

/-- The display strings `displayLoop` returns: those it was given, then one per
node, each the result of `nodeDisplay` on that node. -/
theorem displayLoop_ok (c : Ctx) (BF : Int → GoString) :
    ∀ (nodes : List Node) (acc ds : List GoString),
      displayLoop c BF nodes acc = .ok ds →
      ds.length = acc.length + nodes.length ∧
      ∀ (i : Nat) (node : Node), nodes[i]? = some node →
        ∃ d, ds[acc.length + i]? = some d ∧ nodeDisplay c BF node = .ok d := by
  intro nodes
  induction nodes with
  | nil =>
    intro acc ds h
    simp only [displayLoop, Except.ok.injEq] at h
    subst h
    simp
  | cons n rest ih =>
    intro acc ds h
    unfold displayLoop at h
    cases hn : nodeDisplay c BF n with
    | error p => rw [hn] at h; simp at h
    | ok d =>
      rw [hn] at h
      simp only at h
      obtain ⟨hlen, hall⟩ := ih (acc ++ [d]) ds h
      simp only [List.length_append, List.length_singleton] at hlen hall
      refine ⟨by simp only [List.length_cons]; omega, ?_⟩
      intro i node hi
      cases i with
      | zero =>
        simp only [List.getElem?_cons_zero, Option.some.injEq] at hi
        subst hi
        refine ⟨d, ?_, hn⟩
        have hpre : ∀ (l : List Node) (a r : List GoString),
            displayLoop c BF l a = .ok r → ∃ t, r = a ++ t := by
          intro l
          induction l with
          | nil =>
            intro a r hr
            simp only [displayLoop, Except.ok.injEq] at hr
            exact ⟨[], by simp [hr]⟩
          | cons x xs ihx =>
            intro a r hr
            unfold displayLoop at hr
            cases hx : nodeDisplay c BF x with
            | error p => rw [hx] at hr; simp at hr
            | ok dx =>
              rw [hx] at hr
              simp only at hr
              obtain ⟨t, ht⟩ := ihx (a ++ [dx]) r hr
              exact ⟨dx :: t, by simp [ht]⟩
        obtain ⟨t, ht⟩ := hpre rest (acc ++ [d]) ds h
        rw [ht, List.append_assoc, Nat.add_zero,
          List.getElem?_append_right (Nat.le_refl _)]
        simp
      | succ k =>
        simp only [List.getElem?_cons_succ] at hi
        obtain ⟨d', hd', hnd⟩ := hall k node hi
        refine ⟨d', ?_, hnd⟩
        have hidx : acc.length + (k + 1) = acc.length + 1 + k := by omega
        rw [hidx]
        exact hd'

/-! ## The windowed list builder -/

/-- C1 (as amended). For every non-empty list, every valid selection and every
terminal height at which the computed height is at least 2 and the slice start
`selection - 2` is not negative when the slice is taken,
`GetDirectoryDisplayListing` returns without error a non-empty listing; its
length is `len(objects) - (selection - 2)` when the computed height is at most
`selection + 2` and `len(objects)` otherwise, so at most `len(objects)`. -/
theorem GetDirectoryDisplayListing_nonempty_window (c : Ctx) (objs : List GoString)
    (sel : Int) (hne : objs ≠ []) (h0 : 0 ≤ sel) (hlt : sel < len objs)
    (hfit : 2 ≤ GetStringListHeight c objs)
    (hslice : GetStringListHeight c objs ≤ sel + 2 → 2 ≤ sel) :
    ∃ listing, GetDirectoryDisplayListing c objs sel = .ok (listing, none) ∧
      listing ≠ [] ∧
      len listing =
        (if GetStringListHeight c objs ≤ sel + 2 then len objs - (sel - 2) else len objs) ∧
      len listing ≤ len objs := by
  rw [GetDirectoryDisplayListing_eq]
  have h2 : ¬ GetStringListHeight c objs < 2 := by omega
  rw [if_neg h2]
  have hlen0 : 0 < len objs := by omega
  by_cases hs : GetStringListHeight c objs ≤ sel + 2
  · have hsel2 := hslice hs
    have hb : 0 ≤ sel - 2 ∧ sel - 2 ≤ len objs := by omega
    rw [if_pos ⟨hne, hs⟩, if_pos hb, if_pos hs]
    refine ⟨_, rfl, ?_⟩
    have hl : len ((labelled sel 0 objs).drop (sel - 2).toNat) = len objs - (sel - 2) := by
      unfold len at *
      rw [List.length_drop, labelled_length]
      omega
    refine ⟨?_, hl, by omega⟩
    intro hnil
    rw [hnil] at hl
    simp [len] at hl
    unfold len at hlt
    omega
  · rw [if_neg (fun hh => hs hh.2), if_neg hs]
    refine ⟨_, rfl, ?_⟩
    have hl : len (labelled sel 0 objs) = len objs := by
      unfold len; rw [labelled_length]
    refine ⟨?_, hl, by omega⟩
    intro hnil
    rw [hnil] at hl
    simp [len] at hl
    unfold len at hlen0
    omega

/-- C1, non-vacuity: ten entries, terminal height 8 with five reserved rows,
selection 7. -/
theorem GetDirectoryDisplayListing_nonempty_window_witness :
    ∃ listing, GetDirectoryDisplayListing ⟨80, 8, 5, 5⟩ tenEntries 7 = .ok (listing, none) ∧
      listing ≠ [] ∧
      len listing =
        (if GetStringListHeight ⟨80, 8, 5, 5⟩ tenEntries ≤ 7 + 2 then len tenEntries - (7 - 2)
         else len tenEntries) ∧
      len listing ≤ len tenEntries :=
  GetDirectoryDisplayListing_nonempty_window ⟨80, 8, 5, 5⟩ tenEntries 7
    (by decide) (by decide) (by decide) (by decide) (by decide)

/-- C1 as stated fails. Whatever the value of `LOWER_BUFFER`, with the four
entries `a`, `b`, `c`, `d`, the valid selection 0 and terminal height
`LOWER_BUFFER + 3`, the call returns without error all four lines while the
available height is 3: no returned listing is both non-empty and at most the
available height long. -/
theorem GetDirectoryDisplayListing_window_exceeds_height :
    (∀ LB : Int,
      GetDirectoryDisplayListing ⟨80, LB + 3, LB, 5⟩ fourEntries 0 =
        .ok ([highlightedLine 0 (ascii "a"), plainLine 1 (ascii "b"),
          plainLine 2 (ascii "c"), plainLine 3 (ascii "d")], none) ∧
      GetStringListHeight ⟨80, LB + 3, LB, 5⟩ fourEntries = 3) ∧
    ¬ ∃ LB : Int, ∃ listing err,
      GetDirectoryDisplayListing ⟨80, LB + 3, LB, 5⟩ fourEntries 0 = .ok (listing, err) ∧
      listing ≠ [] ∧
      len listing ≤ GetStringListHeight ⟨80, LB + 3, LB, 5⟩ fourEntries := by
  have hh : ∀ LB : Int, GetStringListHeight ⟨80, LB + 3, LB, 5⟩ fourEntries = 3 := by
    intro LB
    simp [GetStringListHeight, len, fourEntries]
  have hg : ∀ LB : Int,
      GetDirectoryDisplayListing ⟨80, LB + 3, LB, 5⟩ fourEntries 0 =
        .ok ([highlightedLine 0 (ascii "a"), plainLine 1 (ascii "b"),
          plainLine 2 (ascii "c"), plainLine 3 (ascii "d")], none) := by
    intro LB
    rw [GetDirectoryDisplayListing_eq, hh]
    rfl
  refine ⟨fun LB => ⟨hg LB, hh LB⟩, ?_⟩
  rintro ⟨LB, listing, err, h, _, hlen⟩
  rw [hg] at h
  rw [hh] at hlen
  simp only [Except.ok.injEq, Prod.mk.injEq] at h
  rw [← h.1] at hlen
  simp [len] at hlen

/-- C2. For every list and every valid selection, a listing returned without
error has a position holding the highlighted line built from index `selection`
and `objects[selection]`, and every other line of it is the unhighlighted line
`[i] s` of some other index `i` and its string `objects[i]`, which is not of the
highlighted form: exactly one line is highlighted. -/
theorem GetDirectoryDisplayListing_one_highlight (c : Ctx) (objs : List GoString)
    (sel : Int) (listing : List GoString) (h0 : 0 ≤ sel) (hlt : sel < len objs)
    (hret : GetDirectoryDisplayListing c objs sel = .ok (listing, none)) :
    ∃ (pos : Nat) (obj : GoString), objs[sel.toNat]? = some obj ∧
      listing[pos]? = some (highlightedLine sel obj) ∧
      ∀ (j : Nat) (line : GoString), listing[j]? = some line → j ≠ pos →
        (∃ (i : Nat) (s : GoString), (i : Int) ≠ sel ∧ objs[i]? = some s ∧
          line = plainLine (i : Int) s) ∧
        IsPlain line ∧ ¬ IsHighlighted line := by
  obtain ⟨_, hw⟩ := GetDirectoryDisplayListing_ok_window c objs sel listing hret
  have hk : ∃ k : Nat, (k : Int) ≤ sel ∧ listing = (labelled sel 0 objs).drop k := by
    rcases hw with ⟨_, hl⟩ | ⟨_, h2, _, hl⟩
    · exact ⟨0, by simpa using h0, by simpa using hl⟩
    · exact ⟨(sel - 2).toNat, by omega, hl⟩
  obtain ⟨k, hk, rfl⟩ := hk
  have hget : ∀ j, ((labelled sel 0 objs).drop k)[j]? =
      (objs[k + j]?).map (labelOf sel (k + j)) := by
    intro j
    rw [List.getElem?_drop, labelled_getElem?, Nat.zero_add]
  unfold len at hlt
  have hsn : sel.toNat < objs.length := by omega
  refine ⟨sel.toNat - k, objs[sel.toNat], List.getElem?_eq_getElem hsn, ?_, ?_⟩
  · rw [hget]
    have hidx : k + (sel.toNat - k) = sel.toNat := by omega
    rw [hidx, List.getElem?_eq_getElem hsn]
    simp only [Option.map_some', labelOf]
    have hc : ((sel.toNat : Nat) : Int) = sel := by omega
    rw [hc, if_pos rfl]
  · intro j line hj hne
    rw [hget] at hj
    cases hobj : objs[k + j]? with
    | none => rw [hobj] at hj; simp at hj
    | some s =>
      rw [hobj] at hj
      simp only [Option.map_some', Option.some.injEq] at hj
      have hidx : ((k + j : Nat) : Int) ≠ sel := by
        intro hcon
        apply hne
        omega
      have hline : line = plainLine ((k + j : Nat) : Int) s := by
        rw [← hj]
        unfold labelOf
        rw [if_neg hidx]
      have hp : IsPlain line := ⟨k + j, s, hline⟩
      exact ⟨⟨k + j, s, hidx, hobj, hline⟩, hp, plain_not_highlighted line hp⟩

/-- C2, non-vacuity: ten entries, terminal height 8 with five reserved rows,
selection 7. -/
theorem GetDirectoryDisplayListing_one_highlight_witness :
    ∃ (pos : Nat) (obj : GoString), tenEntries[(7 : Int).toNat]? = some obj ∧
      ([plainLine 5 (ascii "e5"), plainLine 6 (ascii "e6"), highlightedLine 7 (ascii "e7"),
        plainLine 8 (ascii "e8"), plainLine 9 (ascii "e9")] : List GoString)[pos]? =
        some (highlightedLine 7 obj) ∧
      ∀ (j : Nat) (line : GoString),
        ([plainLine 5 (ascii "e5"), plainLine 6 (ascii "e6"), highlightedLine 7 (ascii "e7"),
          plainLine 8 (ascii "e8"), plainLine 9 (ascii "e9")] : List GoString)[j]? = some line →
        j ≠ pos →
        (∃ (i : Nat) (s : GoString), (i : Int) ≠ 7 ∧ tenEntries[i]? = some s ∧
          line = plainLine (i : Int) s) ∧
        IsPlain line ∧ ¬ IsHighlighted line :=
  GetDirectoryDisplayListing_one_highlight ⟨80, 8, 5, 5⟩ tenEntries 7 _
    (by decide) (by decide) (by rfl)

/-- C3. `HaveTermSpace` is false exactly below 2; `GetDirectoryDisplayListing`
returns an error exactly when `min(len(objects)+2, TermHeight - LOWER_BUFFER)`
is below 2, and the error is the terminal-too-small one; in particular with
`LOWER_BUFFER ≥ 0` every terminal height below 2 gives that error, for every
list and every selection. -/
theorem GetDirectoryDisplayListing_error_iff :
    (∀ h : Int, HaveTermSpace h = false ↔ h < 2) ∧
    (∀ (c : Ctx) (objs : List GoString) (sel : Int),
      ((∃ listing e, GetDirectoryDisplayListing c objs sel = .ok (listing, some e)) ↔
        min (len objs + 2) (c.TermHeight - c.LOWER_BUFFER) < 2) ∧
      (∀ listing e, GetDirectoryDisplayListing c objs sel = .ok (listing, some e) →
        e = errExpandHeight)) ∧
    (∀ (c : Ctx) (objs : List GoString) (sel : Int),
      0 ≤ c.LOWER_BUFFER → c.TermHeight < 2 →
      ∃ listing, GetDirectoryDisplayListing c objs sel = .ok (listing, some errExpandHeight)) := by
  refine ⟨HaveTermSpace_false_iff, ?_, ?_⟩
  · intro c objs sel
    refine ⟨⟨?_, ?_⟩, ?_⟩
    · rintro ⟨listing, e, h⟩
      rw [← GetStringListHeight_eq_min]
      exact (GetDirectoryDisplayListing_error_inv c objs sel listing e h).1
    · intro h
      rw [← GetStringListHeight_eq_min] at h
      refine ⟨labelled sel 0 objs, errExpandHeight, ?_⟩
      rw [GetDirectoryDisplayListing_eq, if_pos h]
    · intro listing e h
      exact (GetDirectoryDisplayListing_error_inv c objs sel listing e h).2.1
  · intro c objs sel hLB hH
    have h : GetStringListHeight c objs < 2 := by
      rw [GetStringListHeight_eq_min]
      have := min_le_right (len objs + 2) (c.TermHeight - c.LOWER_BUFFER)
      omega
    refine ⟨labelled sel 0 objs, ?_⟩
    rw [GetDirectoryDisplayListing_eq, if_pos h]

/-- C3, non-vacuity: terminal height 1 with five reserved rows, ten entries,
selection 7. -/
theorem GetDirectoryDisplayListing_error_iff_witness :
    ∃ listing, GetDirectoryDisplayListing ⟨80, 1, 5, 5⟩ tenEntries 7 =
      .ok (listing, some errExpandHeight) :=
  GetDirectoryDisplayListing_error_iff.2.2 ⟨80, 1, 5, 5⟩ tenEntries 7 (by decide) (by decide)

/-- C4 (as amended). Whenever `GetDirectoryDisplayListing` fails with the
terminal-too-small error, the listing it returns alongside the error is the full
labelled-line sequence, one line per object; for terminal height 1,
`LOWER_BUFFER ≥ 0`, every non-empty list and every selection the result is that
(non-empty) sequence together with the error. `CreateBucketList` and
`CreateDirectoryList` drop that listing: they hand the message to `RenderError`
and return the zero list. -/
theorem GetDirectoryDisplayListing_error_listing (c : Ctx) (objs : List GoString)
    (sel : Int) :
    (∀ listing e, GetDirectoryDisplayListing c objs sel = .ok (listing, some e) →
      listing = labelled sel 0 objs ∧ len listing = len objs) ∧
    (0 ≤ c.LOWER_BUFFER → c.TermHeight = 1 → objs ≠ [] →
      GetDirectoryDisplayListing c objs sel =
        .ok (labelled sel 0 objs, some errExpandHeight) ∧
      labelled sel 0 objs ≠ []) ∧
    (∀ (buckets : List BucketWithDisplay) (listing : List GoString) (e : String),
      GetDirectoryDisplayListing c (buckets.map (fun bucket => bucket.displayString)) sel =
        .ok (listing, some e) →
      CreateBucketList c buckets sel = .ok ⟨TermuiList.zero, some e⟩) ∧
    (∀ (BF : Int → GoString) (title : GoString) (nodes : List Node)
      (displayStrings listing : List GoString) (e : String),
      displayLoop c BF nodes [] = .ok displayStrings →
      GetDirectoryDisplayListing c displayStrings sel = .ok (listing, some e) →
      CreateDirectoryList c BF title nodes sel = .ok ⟨TermuiList.zero, some e⟩) := by
  refine ⟨?_, ?_, ?_, ?_⟩
  · intro listing e h
    obtain ⟨_, _, hl⟩ := GetDirectoryDisplayListing_error_inv c objs sel listing e h
    rw [hl]
    exact ⟨rfl, by unfold len; rw [labelled_length]⟩
  · intro hLB hH hne
    have h : GetStringListHeight c objs < 2 := by
      rw [GetStringListHeight_eq_min]
      have := min_le_right (len objs + 2) (c.TermHeight - c.LOWER_BUFFER)
      omega
    refine ⟨by rw [GetDirectoryDisplayListing_eq, if_pos h], ?_⟩
    intro hnil
    have hl := labelled_length sel objs 0
    rw [hnil] at hl
    exact hne (List.length_eq_zero.mp hl.symm)
  · intro buckets listing e hg
    unfold CreateBucketList
    have hds := bucket_displayStrings_eq buckets []
    simp only [List.nil_append] at hds
    rw [hds]
    simp only [hg]
  · intro BF title nodes ds listing e hd hg
    unfold CreateDirectoryList
    rw [hd]
    simp only [hg]

/-- C4, non-vacuity: terminal height 1 with five reserved rows, four entries,
selection 0. -/
theorem GetDirectoryDisplayListing_error_listing_witness :
    GetDirectoryDisplayListing ⟨80, 1, 5, 5⟩ fourEntries 0 =
        .ok (labelled 0 0 fourEntries, some errExpandHeight) ∧
      labelled 0 0 fourEntries ≠ [] :=
  (GetDirectoryDisplayListing_error_listing ⟨80, 1, 5, 5⟩ fourEntries 0).2.1
    (by decide) (by decide) (by decide)

/-- C4 as stated fails. At terminal height 1 with the one-entry list `["a"]`
and selection 0, for every `LOWER_BUFFER ≥ 0` the call returns the
terminal-too-small error together with the one labelled line; and whatever the
value of `LOWER_BUFFER`, it does not return an empty listing together with an
error. -/
theorem GetDirectoryDisplayListing_error_listing_not_empty :
    (∀ LB : Int, 0 ≤ LB →
      GetDirectoryDisplayListing ⟨80, 1, LB, 5⟩ [ascii "a"] 0 =
        .ok ([highlightedLine 0 (ascii "a")], some errExpandHeight)) ∧
    ¬ ∃ LB : Int, ∃ e,
      GetDirectoryDisplayListing ⟨80, 1, LB, 5⟩ [ascii "a"] 0 = .ok ([], some e) := by
  constructor
  · intro LB hLB
    have hh : GetStringListHeight ⟨80, 1, LB, 5⟩ [ascii "a"] < 2 := by
      rw [GetStringListHeight_eq_min]
      have := min_le_right (len [ascii "a"] + 2) ((1 : Int) - LB)
      simp only at this ⊢
      omega
    rw [GetDirectoryDisplayListing_eq, if_pos hh]
    rfl
  · rintro ⟨LB, e, h⟩
    have hl := (GetDirectoryDisplayListing_error_inv ⟨80, 1, LB, 5⟩ [ascii "a"] 0 [] e h).2.2
    simp [labelled] at hl

/-- C5 (as amended). For the empty collection and every integer selection:
when `TermHeight - LOWER_BUFFER ≥ 2`, `GetDirectoryDisplayListing` returns an
empty listing with no error and without slicing, and `CreateBucketList` on no
buckets returns a list with no items and height 2; when
`TermHeight - LOWER_BUFFER < 2` the call returns the terminal-too-small error
with an empty listing. It never panics. -/
theorem GetDirectoryDisplayListing_empty (c : Ctx) (sel : Int) :
    (2 ≤ c.TermHeight - c.LOWER_BUFFER →
      GetDirectoryDisplayListing c [] sel = .ok ([], none) ∧
      CreateBucketList c [] sel =
        .ok ⟨⟨[], Color.yellow, ascii "S3 Buckets", 2, c.TermWidth - c.RIGHT_BUFFER, 0⟩,
          none⟩) ∧
    (c.TermHeight - c.LOWER_BUFFER < 2 →
      GetDirectoryDisplayListing c [] sel = .ok ([], some errExpandHeight) ∧
      CreateBucketList c [] sel = .ok ⟨TermuiList.zero, some errExpandHeight⟩) := by
  have hmin : GetStringListHeight c [] = min 2 (c.TermHeight - c.LOWER_BUFFER) := by
    rw [GetStringListHeight_eq_min]; simp [len]
  constructor
  · intro h
    have hh : GetStringListHeight c [] = 2 := by rw [hmin, min_eq_left h]
    have hb : GetBucketListHeight c [] = 2 := by
      unfold GetBucketListHeight
      simp only [len, List.length_nil, Nat.cast_zero, zero_add]
      split <;> omega
    have hg : GetDirectoryDisplayListing c [] sel = .ok ([], none) := by
      rw [GetDirectoryDisplayListing_eq, hh]
      simp [labelled]
    refine ⟨hg, ?_⟩
    unfold CreateBucketList
    simp only [List.foldl_nil, hg, hb]
  · intro h
    have hh : GetStringListHeight c [] < 2 := by
      rw [hmin]
      have := min_le_right 2 (c.TermHeight - c.LOWER_BUFFER)
      omega
    have hg : GetDirectoryDisplayListing c [] sel = .ok ([], some errExpandHeight) := by
      rw [GetDirectoryDisplayListing_eq, if_pos hh]
      simp [labelled]
    refine ⟨hg, ?_⟩
    unfold CreateBucketList
    simp only [List.foldl_nil, hg]

/-- C5, non-vacuity: no buckets, selection -3, terminal height 24 with five
reserved rows. -/
theorem GetDirectoryDisplayListing_empty_witness :
    GetDirectoryDisplayListing ⟨80, 24, 5, 5⟩ [] (-3) = .ok ([], none) ∧
    CreateBucketList ⟨80, 24, 5, 5⟩ [] (-3) =
      .ok ⟨⟨[], Color.yellow, ascii "S3 Buckets", 2, 80 - 5, 0⟩, none⟩ :=
  (GetDirectoryDisplayListing_empty ⟨80, 24, 5, 5⟩ (-3)).1 (by decide)

/-- C5 as stated fails. Whatever the value of `LOWER_BUFFER`, at terminal height
`LOWER_BUFFER + 1` the call on the empty collection with selection 0 returns the
terminal-too-small error, not an empty listing with no error. -/
theorem GetDirectoryDisplayListing_empty_small_terminal :
    (∀ LB : Int,
      GetDirectoryDisplayListing ⟨80, LB + 1, LB, 5⟩ [] 0 =
        .ok ([], some errExpandHeight)) ∧
    ¬ ∃ LB : Int, GetDirectoryDisplayListing ⟨80, LB + 1, LB, 5⟩ [] 0 = .ok ([], none) := by
  have hg : ∀ LB : Int,
      GetDirectoryDisplayListing ⟨80, LB + 1, LB, 5⟩ [] 0 =
        .ok ([], some errExpandHeight) := by
    intro LB
    have hh : GetStringListHeight ⟨80, LB + 1, LB, 5⟩ [] < 2 := by
      simp [GetStringListHeight, len]
    rw [GetDirectoryDisplayListing_eq, if_pos hh]
    rfl
  refine ⟨hg, ?_⟩
  rintro ⟨LB, h⟩
  rw [hg] at h
  simp at h

/-- C6. For every non-empty list, every valid selection and every terminal
height at which `GetDirectoryDisplayListing` returns a listing without error: if
the computed height is at most `selection + 2`, the listing is exactly the suffix
of the labelled sequence from index `selection - 2`, whose first line carries
index `selection - 2` and whose third line is the highlighted line of index
`selection`; otherwise it is the whole labelled sequence. With ten entries,
terminal height 8, `LOWER_BUFFER ≥ 0` and selection 7 the window starts at
index 5 and holds entry 7 highlighted. -/
theorem GetDirectoryDisplayListing_window (c : Ctx) (objs : List GoString) (sel : Int)
    (listing : List GoString) (hne : objs ≠ []) (h0 : 0 ≤ sel) (hlt : sel < len objs)
    (hret : GetDirectoryDisplayListing c objs sel = .ok (listing, none)) :
    (GetStringListHeight c objs ≤ sel + 2 →
      2 ≤ sel ∧
      listing = (labelled sel 0 objs).drop (sel - 2).toNat ∧
      listing = labelled sel (sel - 2).toNat (objs.drop (sel - 2).toNat) ∧
      (∃ o, objs[(sel - 2).toNat]? = some o ∧ listing[0]? = some (plainLine (sel - 2) o)) ∧
      (∃ o, objs[sel.toNat]? = some o ∧ listing[2]? = some (highlightedLine sel o))) ∧
    (¬ GetStringListHeight c objs ≤ sel + 2 → listing = labelled sel 0 objs) ∧
    (c.TermHeight = 8 → 0 ≤ c.LOWER_BUFFER → objs.length = 10 → sel = 7 →
      listing = labelled 7 5 (objs.drop 5) ∧
      ∃ o5 o7, objs[5]? = some o5 ∧ objs[7]? = some o7 ∧
        listing[0]? = some (plainLine 5 o5) ∧ listing[2]? = some (highlightedLine 7 o7)) := by
  obtain ⟨_, hw⟩ := GetDirectoryDisplayListing_ok_window c objs sel listing hret
  have hlt2 : sel < (objs.length : Int) := hlt
  have hsliced : GetStringListHeight c objs ≤ sel + 2 →
      2 ≤ sel ∧
      listing = (labelled sel 0 objs).drop (sel - 2).toNat ∧
      listing = labelled sel (sel - 2).toNat (objs.drop (sel - 2).toNat) ∧
      (∃ o, objs[(sel - 2).toNat]? = some o ∧ listing[0]? = some (plainLine (sel - 2) o)) ∧
      (∃ o, objs[sel.toNat]? = some o ∧ listing[2]? = some (highlightedLine sel o)) := by
    intro hs
    rcases hw with ⟨hn, _⟩ | ⟨_, h2, _, hl⟩
    · exact absurd ⟨hne, hs⟩ hn
    · have hd : listing = labelled sel (sel - 2).toNat (objs.drop (sel - 2).toNat) := by
        rw [hl, labelled_drop, Nat.zero_add]
      have hk : (sel - 2).toNat < objs.length := by omega
      have hsn : sel.toNat < objs.length := by omega
      refine ⟨h2, hl, hd, ⟨objs[(sel - 2).toNat], List.getElem?_eq_getElem hk, ?_⟩,
        ⟨objs[sel.toNat], List.getElem?_eq_getElem hsn, ?_⟩⟩
      · rw [hl, List.getElem?_drop, labelled_getElem?, Nat.zero_add, Nat.add_zero,
          List.getElem?_eq_getElem hk]
        simp only [Option.map_some', labelOf]
        have hc : (((sel - 2).toNat : Nat) : Int) = sel - 2 := by omega
        rw [hc, if_neg (by omega)]
      · rw [hl, List.getElem?_drop, labelled_getElem?, Nat.zero_add]
        have hidx : (sel - 2).toNat + 2 = sel.toNat := by omega
        rw [hidx, List.getElem?_eq_getElem hsn]
        simp only [Option.map_some', labelOf]
        have hc : ((sel.toNat : Nat) : Int) = sel := by omega
        rw [hc, if_pos rfl]
  refine ⟨hsliced, ?_, ?_⟩
  · intro hs
    rcases hw with ⟨_, hl⟩ | ⟨⟨_, hs2⟩, _⟩
    · exact hl
    · exact absurd hs2 hs
  · intro hH hLB _ hsel
    have hs : GetStringListHeight c objs ≤ sel + 2 := by
      rw [GetStringListHeight_eq_min]
      have := min_le_right (len objs + 2) (c.TermHeight - c.LOWER_BUFFER)
      omega
    obtain ⟨_, _, hd, ⟨o5, ho5, hl5⟩, ⟨o7, ho7, hl7⟩⟩ := hsliced hs
    subst hsel
    exact ⟨hd, o5, o7, ho5, ho7, hl5, hl7⟩

/-- C6, the scenario of the claim: ten entries, terminal height 8 (no reserved
rows), selection 7; the window starts at index 5 and its third line is entry 7
highlighted. -/
theorem GetDirectoryDisplayListing_window_witness :
    GetDirectoryDisplayListing ⟨80, 8, 0, 5⟩ tenEntries 7 =
      .ok ([plainLine 5 (ascii "e5"), plainLine 6 (ascii "e6"), highlightedLine 7 (ascii "e7"),
        plainLine 8 (ascii "e8"), plainLine 9 (ascii "e9")], none) ∧
    ([plainLine 5 (ascii "e5"), plainLine 6 (ascii "e6"), highlightedLine 7 (ascii "e7"),
        plainLine 8 (ascii "e8"), plainLine 9 (ascii "e9")] : List GoString) =
      labelled 7 5 (tenEntries.drop 5) ∧
    ∃ o5 o7, tenEntries[5]? = some o5 ∧ tenEntries[7]? = some o7 ∧
      ([plainLine 5 (ascii "e5"), plainLine 6 (ascii "e6"), highlightedLine 7 (ascii "e7"),
        plainLine 8 (ascii "e8"), plainLine 9 (ascii "e9")] : List GoString)[0]? =
        some (plainLine 5 o5) ∧
      ([plainLine 5 (ascii "e5"), plainLine 6 (ascii "e6"), highlightedLine 7 (ascii "e7"),
        plainLine 8 (ascii "e8"), plainLine 9 (ascii "e9")] : List GoString)[2]? =
        some (highlightedLine 7 o7) :=
  ⟨by rfl,
    (GetDirectoryDisplayListing_window ⟨80, 8, 0, 5⟩ tenEntries 7 _
      (by decide) (by decide) (by decide) (by rfl)).2.2 rfl (by decide) rfl rfl⟩

/-- The slice of `GetDirectoryDisplayListing` panics exactly when the computed
height is 2 or more, at most `selection + 2`, and `selection` is 0 or 1. -/
theorem GetDirectoryDisplayListing_panics_iff (c : Ctx) (objs : List GoString) (sel : Int)
    (hne : objs ≠ []) (hlt : sel < len objs) :
    GetDirectoryDisplayListing c objs sel = .error .sliceBounds ↔
      2 ≤ GetStringListHeight c objs ∧ GetStringListHeight c objs ≤ sel + 2 ∧ sel < 2 := by
  rw [GetDirectoryDisplayListing_eq]
  by_cases h2 : GetStringListHeight c objs < 2
  · rw [if_pos h2]
    constructor
    · intro h; simp at h
    · intro h; omega
  · rw [if_neg h2]
    by_cases hs : GetStringListHeight c objs ≤ sel + 2
    · rw [if_pos ⟨hne, hs⟩]
      by_cases hb : 0 ≤ sel - 2 ∧ sel - 2 ≤ len objs
      · rw [if_pos hb]
        constructor
        · intro h; simp at h
        · intro h; omega
      · rw [if_neg hb]
        constructor
        · intro _
          refine ⟨by omega, hs, ?_⟩
          by_contra hcon
          exact hb ⟨by omega, by omega⟩
        · intro _; rfl
    · rw [if_neg (fun hh => hs hh.2)]
      constructor
      · intro h; simp at h
      · intro h; omega

/-- C7, the failing input. Whatever the value of `LOWER_BUFFER`, with the
one-entry list `["a"]`, the valid selection 0 and terminal height
`LOWER_BUFFER + 2`, the computed height is 2, the slice `listing[(0 - 2):]` is
taken and the call panics with slice bounds out of range: the start index is
not clamped to the start of the sequence. -/
theorem GetDirectoryDisplayListing_slice_out_of_range (LB : Int) :
    GetStringListHeight ⟨80, LB + 2, LB, 5⟩ [ascii "a"] = 2 ∧
    GetDirectoryDisplayListing ⟨80, LB + 2, LB, 5⟩ [ascii "a"] 0 = .error .sliceBounds := by
  have hh : GetStringListHeight ⟨80, LB + 2, LB, 5⟩ [ascii "a"] = 2 := by
    simp [GetStringListHeight, len]
  refine ⟨hh, ?_⟩
  rw [GetDirectoryDisplayListing_eq, hh]
  simp

/-! ## Heights and list assembly -/

theorem GetBucketListHeight_eq_min (c : Ctx) (buckets : List BucketWithDisplay) :
    GetBucketListHeight c buckets = min (len buckets + 2) (c.TermHeight - c.LOWER_BUFFER) := by
  unfold GetBucketListHeight
  simp only
  split
  · rw [min_eq_left]; omega
  · rw [min_eq_right]; omega

theorem GetNodeListHeight_eq_min (c : Ctx) (nodes : List Node) :
    GetNodeListHeight c nodes = min (len nodes + 2) (c.TermHeight - c.LOWER_BUFFER) := by
  unfold GetNodeListHeight
  simp only
  split
  · rw [min_eq_left]; omega
  · rw [min_eq_right]; omega

/-- C8. Each of `GetStringListHeight`, `GetBucketListHeight` and
`GetNodeListHeight` returns `min(n + 2, TermHeight - LOWER_BUFFER)` for a
collection of length `n`, so the three agree on collections of equal length;
and the height `CreateBucketList` and `CreateDirectoryList` assign to the list
they build, computed over the whole collection, is the `maxHeight`
`GetDirectoryDisplayListing` computed over the display strings. -/
theorem list_heights_agree (c : Ctx) :
    (∀ strings : List GoString,
      GetStringListHeight c strings = min (len strings + 2) (c.TermHeight - c.LOWER_BUFFER)) ∧
    (∀ buckets : List BucketWithDisplay,
      GetBucketListHeight c buckets = min (len buckets + 2) (c.TermHeight - c.LOWER_BUFFER)) ∧
    (∀ nodes : List Node,
      GetNodeListHeight c nodes = min (len nodes + 2) (c.TermHeight - c.LOWER_BUFFER)) ∧
    (∀ (strings : List GoString) (buckets : List BucketWithDisplay) (nodes : List Node),
      len strings = len buckets → len buckets = len nodes →
      GetStringListHeight c strings = GetBucketListHeight c buckets ∧
      GetBucketListHeight c buckets = GetNodeListHeight c nodes) ∧
    (∀ (buckets : List BucketWithDisplay) (sel : Int) (a : Assembled),
      CreateBucketList c buckets sel = .ok a → a.rendered = none →
      GetDirectoryDisplayListing c (buckets.map (fun bucket => bucket.displayString)) sel =
        .ok (a.list.Items, none) ∧
      a.list.Height =
        GetStringListHeight c (buckets.map (fun bucket => bucket.displayString))) ∧
    (∀ (BF : Int → GoString) (title : GoString) (nodes : List Node) (sel : Int)
      (a : Assembled),
      CreateDirectoryList c BF title nodes sel = .ok a → a.rendered = none →
      ∃ displayStrings, displayLoop c BF nodes [] = .ok displayStrings ∧
        GetDirectoryDisplayListing c displayStrings sel = .ok (a.list.Items, none) ∧
        a.list.Height = GetStringListHeight c displayStrings) := by
  refine ⟨GetStringListHeight_eq_min c, GetBucketListHeight_eq_min c,
    GetNodeListHeight_eq_min c, ?_, ?_, ?_⟩
  · intro strings buckets nodes h1 h2
    rw [GetStringListHeight_eq_min, GetBucketListHeight_eq_min, GetNodeListHeight_eq_min,
      h1, h2]
    exact ⟨rfl, rfl⟩
  · intro buckets sel a h hr
    unfold CreateBucketList at h
    have hds := bucket_displayStrings_eq buckets []
    simp only [List.nil_append] at hds
    rw [hds] at h
    simp only at h
    cases hg : GetDirectoryDisplayListing c
        (buckets.map (fun bucket => bucket.displayString)) sel with
    | error p => rw [hg] at h; simp at h
    | ok r =>
      obtain ⟨listing, err⟩ := r
      rw [hg] at h
      cases err with
      | some e =>
        simp only [Except.ok.injEq] at h
        rw [← h] at hr
        simp at hr
      | none =>
        simp only [Except.ok.injEq] at h
        rw [← h]
        refine ⟨rfl, ?_⟩
        simp only
        rw [GetBucketListHeight_eq_min, GetStringListHeight_eq_min]
        simp [len]
  · intro BF title nodes sel a h hr
    unfold CreateDirectoryList at h
    cases hd : displayLoop c BF nodes [] with
    | error p => rw [hd] at h; simp at h
    | ok ds =>
      rw [hd] at h
      simp only at h
      cases hg : GetDirectoryDisplayListing c ds sel with
      | error p => rw [hg] at h; simp at h
      | ok r =>
        obtain ⟨listing, err⟩ := r
        rw [hg] at h
        cases err with
        | some e =>
          simp only [Except.ok.injEq] at h
          rw [← h] at hr
          simp at hr
        | none =>
          simp only [Except.ok.injEq] at h
          rw [← h]
          refine ⟨ds, rfl, hg, ?_⟩
          simp only
          rw [GetNodeListHeight_eq_min, GetStringListHeight_eq_min]
          have hl := (displayLoop_ok c BF nodes [] ds hd).1
          simp only [List.length_nil, Nat.zero_add] at hl
          simp [len, hl]

/-- C8, non-vacuity: two buckets, selection 1, an 80 by 24 terminal with five
reserved rows: the list is built and its height is the height computed over the
two display strings; and the directory list of `exampleFile` and `exampleDir`,
selection 1, on a 40 by 24 terminal: it is built and its height is the height
computed over the two display strings. -/
theorem list_heights_agree_witness :
    (GetDirectoryDisplayListing ⟨80, 24, 5, 5⟩
        (exampleBuckets.map (fun bucket => bucket.displayString)) 1 =
      .ok ([plainLine 0 (ascii "logs"), highlightedLine 1 (ascii "media")], none) ∧
    (4 : Int) =
      GetStringListHeight ⟨80, 24, 5, 5⟩ (exampleBuckets.map (fun bucket => bucket.displayString))) ∧
    (∃ displayStrings,
      displayLoop ⟨40, 24, 5, 5⟩ exampleByteFormat [exampleFile, exampleDir] [] =
        .ok displayStrings ∧
      GetDirectoryDisplayListing ⟨40, 24, 5, 5⟩ displayStrings 1 =
        .ok ([plainLine 0 (ascii "abcdefg...          1234 B"),
          highlightedLine 1 (ascii "photos/")], none) ∧
      (4 : Int) = GetStringListHeight ⟨40, 24, 5, 5⟩ displayStrings) :=
  ⟨(list_heights_agree ⟨80, 24, 5, 5⟩).2.2.2.2.1 exampleBuckets 1
    ⟨⟨[plainLine 0 (ascii "logs"), highlightedLine 1 (ascii "media")], Color.yellow,
      ascii "S3 Buckets", 4, 75, 0⟩, none⟩ (by rfl) rfl,
   (list_heights_agree ⟨40, 24, 5, 5⟩).2.2.2.2.2 exampleByteFormat (ascii "dir")
    [exampleFile, exampleDir] 1
    ⟨⟨[plainLine 0 (ascii "abcdefg...          1234 B"), highlightedLine 1 (ascii "photos/")],
      Color.yellow, ascii "dir", 4, 35, 0⟩, none⟩ (by rfl) rfl⟩

/-! ## Name truncation -/

/-- The three outcomes of `TruncateFilename`: a name at least `TermWidth/4`
long is cut to `TermWidth/4 - 3` bytes and given the ellipsis when
`TermWidth/4 ≥ 3`, and the slice panics when `TermWidth/4 < 3`; a shorter name
is returned unchanged. -/
theorem TruncateFilename_eq (c : Ctx) (filename : GoString) :
    TruncateFilename c filename =
      if len filename ≥ c.TermWidth.tdiv 4 then
        if 3 ≤ c.TermWidth.tdiv 4 then
          .ok (filename.take (c.TermWidth.tdiv 4 - 3).toNat ++ ascii "...",
            c.TermWidth.tdiv 2 - c.TermWidth.tdiv 4)
        else .error .sliceBounds
      else .ok (filename, c.TermWidth.tdiv 2 - len filename) := by
  unfold TruncateFilename
  by_cases hL : len filename ≥ c.TermWidth.tdiv 4
  · rw [if_pos hL, if_pos hL]
    unfold sliceTo
    by_cases h3 : 3 ≤ c.TermWidth.tdiv 4
    · have hb : 0 ≤ c.TermWidth.tdiv 4 - 3 ∧ c.TermWidth.tdiv 4 - 3 ≤ len filename := by
        omega
      rw [if_pos hb, if_pos h3]
      simp only
      have hlen : len (filename.take (c.TermWidth.tdiv 4 - 3).toNat ++ ascii "...") =
          c.TermWidth.tdiv 4 := by
        have he : (ascii "...").length = 3 := by decide
        unfold len at hL ⊢
        rw [List.length_append, List.length_take, he]
        omega
      rw [hlen]
    · have hb : ¬ (0 ≤ c.TermWidth.tdiv 4 - 3 ∧ c.TermWidth.tdiv 4 - 3 ≤ len filename) := by
        omega
      rw [if_neg hb, if_neg h3]
  · rw [if_neg hL, if_neg hL]

theorem Repeat_space (space : Int) (h : 0 ≤ space) :
    ∃ pad, Repeat (ascii " ") space = .ok pad ∧ len pad = space := by
  refine ⟨(List.replicate space.toNat (ascii " ")).flatten, ?_, ?_⟩
  · unfold Repeat
    rw [if_neg (by omega)]
  · have he : (ascii " ").length = 1 := by decide
    unfold len
    simp [List.length_flatten, he]
    omega

/-- What a returned result of `TruncateFilename` tells, for a terminal width
that is not negative. -/
theorem TruncateFilename_ok_inv (c : Ctx) (hW : 0 ≤ c.TermWidth) (filename truncated : GoString)
    (space : Int) (h : TruncateFilename c filename = .ok (truncated, space)) :
    space = c.TermWidth.tdiv 2 - len truncated ∧ 0 ≤ space ∧
    ((len filename ≥ c.TermWidth.tdiv 4 ∧ 3 ≤ c.TermWidth.tdiv 4 ∧
        len truncated = c.TermWidth.tdiv 4 ∧
        truncated = filename.take (c.TermWidth.tdiv 4 - 3).toNat ++ ascii "...") ∨
     (len filename < c.TermWidth.tdiv 4 ∧ truncated = filename)) := by
  have h4 : c.TermWidth.tdiv 4 = c.TermWidth / 4 := Int.tdiv_eq_ediv hW (by decide)
  have h2 : c.TermWidth.tdiv 2 = c.TermWidth / 2 := Int.tdiv_eq_ediv hW (by decide)
  rw [TruncateFilename_eq] at h
  by_cases hL : len filename ≥ c.TermWidth.tdiv 4
  · rw [if_pos hL] at h
    by_cases h3 : 3 ≤ c.TermWidth.tdiv 4
    · rw [if_pos h3] at h
      simp only [Except.ok.injEq, Prod.mk.injEq] at h
      obtain ⟨ht, hs⟩ := h
      have hlen : len truncated = c.TermWidth.tdiv 4 := by
        have he : (ascii "...").length = 3 := by decide
        rw [← ht]
        unfold len at hL ⊢
        rw [List.length_append, List.length_take, he]
        omega
      refine ⟨by rw [hlen, ← hs], by rw [← hs, h4, h2]; omega, Or.inl ⟨hL, h3, hlen, ht.symm⟩⟩
    · rw [if_neg h3] at h
      simp at h
  · rw [if_neg hL] at h
    simp only [Except.ok.injEq, Prod.mk.injEq] at h
    obtain ⟨ht, hs⟩ := h
    subst ht
    have hl := len_nonneg filename
    refine ⟨hs.symm, by rw [← hs, h2]; rw [h4] at hL; omega, Or.inr ⟨by omega, rfl⟩⟩

/-- C9, the failing input. At terminal width 8 the name `abc` has length
`3 ≥ 8/4 = 2`, the slice `filename[:(8/4)-3]` has the negative bound `-1`, and
`TruncateFilename` panics instead of returning a name of length 2. -/
theorem TruncateFilename_narrow_terminal (H LB RB : Int) :
    len (ascii "abc") ≥ (8 : Int).tdiv 4 ∧
    TruncateFilename ⟨8, H, LB, RB⟩ (ascii "abc") = .error .sliceBounds :=
  ⟨by decide, by rfl⟩

theorem displayLoop_returns (c : Ctx) (BF : Int → GoString) :
    ∀ (nodes : List Node) (acc : List GoString),
      (∀ node ∈ nodes, ∃ d, nodeDisplay c BF node = .ok d) →
      ∃ ds, displayLoop c BF nodes acc = .ok ds := by
  intro nodes
  induction nodes with
  | nil => intro acc _; exact ⟨acc, rfl⟩
  | cons n rest ih =>
    intro acc hall
    obtain ⟨d, hd⟩ := hall n (List.mem_cons_self n rest)
    obtain ⟨ds, hds⟩ := ih (acc ++ [d]) (fun node hn => hall node (List.mem_cons_of_mem n hn))
    refine ⟨ds, ?_⟩
    unfold displayLoop
    rw [hd]
    exact hds

/-- C10 (as amended). For a terminal width `W ≥ 0` and every display name at
which `TruncateFilename` returns, that is `W/4 ≥ 3` or `len(name) < W/4`: the
padding count returned is `W/2 - len(truncated)` and is never negative, so
`strings.Repeat` does not panic and the truncated name followed by its padding
is exactly `W/2` bytes long. In `CreateDirectoryList`, when every file node has
a size and a name in that domain, the loop returns one display string per
node, and the display string of every file entry is the result of
`TruncateFilename`, then the result of `strings.Repeat`, then the formatted
size, which therefore starts at byte offset `W/2` of the display string (the
index label is prepended afterwards). -/
theorem TruncateFilename_padding (c : Ctx) (hW : 0 ≤ c.TermWidth) :
    (∀ filename : GoString,
      (3 ≤ c.TermWidth.tdiv 4 ∨ len filename < c.TermWidth.tdiv 4) →
      ∃ (truncated : GoString) (space : Int) (pad : GoString),
        TruncateFilename c filename = .ok (truncated, space) ∧
        space = c.TermWidth.tdiv 2 - len truncated ∧ 0 ≤ space ∧
        Repeat (ascii " ") space = .ok pad ∧ len pad = space ∧
        len (truncated ++ pad) = c.TermWidth.tdiv 2) ∧
    (∀ (filename truncated : GoString) (space : Int),
      TruncateFilename c filename = .ok (truncated, space) →
      (3 ≤ c.TermWidth.tdiv 4 ∨ len filename < c.TermWidth.tdiv 4) ∧
      space = c.TermWidth.tdiv 2 - len truncated ∧ 0 ≤ space) ∧
    (∀ (BF : Int → GoString) (nodes : List Node),
      (∀ node ∈ nodes, node.IsDir = false →
        node.Size ≠ none ∧
        (3 ≤ c.TermWidth.tdiv 4 ∨ len node.DisplayString < c.TermWidth.tdiv 4)) →
      ∃ displayStrings, displayLoop c BF nodes [] = .ok displayStrings ∧
        displayStrings.length = nodes.length ∧
        ∀ (i : Nat) (node : Node), nodes[i]? = some node → node.IsDir = false →
          ∃ (truncated : GoString) (space : Int) (pad : GoString) (sz : Int),
            TruncateFilename c node.DisplayString = .ok (truncated, space) ∧
            Repeat (ascii " ") space = .ok pad ∧
            node.Size = some sz ∧
            displayStrings[i]? = some (truncated ++ pad ++ BF sz) ∧
            len (truncated ++ pad) = c.TermWidth.tdiv 2) := by
  have hinv : ∀ (filename truncated : GoString) (space : Int),
      TruncateFilename c filename = .ok (truncated, space) →
      (3 ≤ c.TermWidth.tdiv 4 ∨ len filename < c.TermWidth.tdiv 4) ∧
      space = c.TermWidth.tdiv 2 - len truncated ∧ 0 ≤ space := by
    intro filename truncated space h
    obtain ⟨hs, hs0, hcase⟩ := TruncateFilename_ok_inv c hW filename truncated space h
    refine ⟨?_, hs, hs0⟩
    rcases hcase with ⟨_, h3, _, _⟩ | ⟨hlt, _⟩
    · exact Or.inl h3
    · exact Or.inr hlt
  have hret : ∀ filename : GoString,
      (3 ≤ c.TermWidth.tdiv 4 ∨ len filename < c.TermWidth.tdiv 4) →
      ∃ (truncated : GoString) (space : Int) (pad : GoString),
        TruncateFilename c filename = .ok (truncated, space) ∧
        space = c.TermWidth.tdiv 2 - len truncated ∧ 0 ≤ space ∧
        Repeat (ascii " ") space = .ok pad ∧ len pad = space ∧
        len (truncated ++ pad) = c.TermWidth.tdiv 2 := by
    intro filename hdom
    have hex : ∃ truncated space, TruncateFilename c filename = .ok (truncated, space) := by
      rw [TruncateFilename_eq]
      by_cases hL : len filename ≥ c.TermWidth.tdiv 4
      · have h3 : 3 ≤ c.TermWidth.tdiv 4 := by
          rcases hdom with h3 | hlt
          · exact h3
          · omega
        rw [if_pos hL, if_pos h3]
        exact ⟨_, _, rfl⟩
      · rw [if_neg hL]
        exact ⟨_, _, rfl⟩
    obtain ⟨truncated, space, ht⟩ := hex
    obtain ⟨_, hs, hs0⟩ := hinv filename truncated space ht
    obtain ⟨pad, hpad, hlen⟩ := Repeat_space space hs0
    refine ⟨truncated, space, pad, ht, hs, hs0, hpad, hlen, ?_⟩
    unfold len at hs hlen ⊢
    rw [List.length_append]
    push_cast
    omega
  refine ⟨hret, hinv, ?_⟩
  intro BF nodes hnodes
  have hnd : ∀ node ∈ nodes, ∃ d, nodeDisplay c BF node = .ok d := by
    intro node hn
    cases hdir : node.IsDir with
    | true => exact ⟨node.DisplayString, by unfold nodeDisplay; simp [hdir]⟩
    | false =>
      obtain ⟨hsize, hdom⟩ := hnodes node hn hdir
      obtain ⟨truncated, space, pad, ht, _, _, hpad, _, _⟩ := hret node.DisplayString hdom
      cases hsz : node.Size with
      | none => exact absurd hsz hsize
      | some sz =>
        refine ⟨truncated ++ pad ++ BF sz, ?_⟩
        unfold nodeDisplay
        simp only [hdir, Bool.not_false, if_true, ht, hpad, hsz]
  obtain ⟨ds, hds⟩ := displayLoop_returns c BF nodes [] hnd
  obtain ⟨hlen, hall⟩ := displayLoop_ok c BF nodes [] ds hds
  simp only [List.length_nil, Nat.zero_add] at hlen hall
  refine ⟨ds, hds, hlen, ?_⟩
  intro i node hi hdir
  obtain ⟨d, hdi, hd⟩ := hall i node hi
  have hmem : node ∈ nodes := List.getElem?_mem hi
  obtain ⟨hsize, hdom⟩ := hnodes node hmem hdir
  obtain ⟨truncated, space, pad, ht, _, _, hpad, _, hl⟩ := hret node.DisplayString hdom
  cases hsz : node.Size with
  | none => exact absurd hsz hsize
  | some sz =>
    refine ⟨truncated, space, pad, sz, ht, hpad, rfl, ?_, hl⟩
    unfold nodeDisplay at hd
    simp only [hdir, Bool.not_false, if_true, ht, hpad, hsz, Except.ok.injEq] at hd
    rw [hdi, hd]

/-- C10, non-vacuity: terminal width 40. The 26-byte name of `exampleFile` is
cut to `abcdefg...` (10 bytes) with padding count 10, 20 bytes together; and for
the two nodes `exampleFile`, `exampleDir` the loop returns two display strings,
the file's built from the results of `TruncateFilename` and `strings.Repeat`. -/
theorem TruncateFilename_padding_witness :
    (∃ (truncated : GoString) (space : Int) (pad : GoString),
      TruncateFilename ⟨40, 24, 5, 5⟩ (ascii "abcdefghijklmnopqrstuvwxyz") =
        .ok (truncated, space) ∧
      space = (40 : Int).tdiv 2 - len truncated ∧ 0 ≤ space ∧
      Repeat (ascii " ") space = .ok pad ∧ len pad = space ∧
      len (truncated ++ pad) = (40 : Int).tdiv 2) ∧
    (∃ displayStrings,
      displayLoop ⟨40, 24, 5, 5⟩ exampleByteFormat [exampleFile, exampleDir] [] =
        .ok displayStrings ∧
      displayStrings.length = [exampleFile, exampleDir].length ∧
      ∀ (i : Nat) (node : Node), [exampleFile, exampleDir][i]? = some node →
        node.IsDir = false →
        ∃ (truncated : GoString) (space : Int) (pad : GoString) (sz : Int),
          TruncateFilename ⟨40, 24, 5, 5⟩ node.DisplayString = .ok (truncated, space) ∧
          Repeat (ascii " ") space = .ok pad ∧
          node.Size = some sz ∧
          displayStrings[i]? = some (truncated ++ pad ++ exampleByteFormat sz) ∧
          len (truncated ++ pad) = (40 : Int).tdiv 2) :=
  ⟨(TruncateFilename_padding ⟨40, 24, 5, 5⟩ (by decide)).1
      (ascii "abcdefghijklmnopqrstuvwxyz") (Or.inl (by decide)),
    (TruncateFilename_padding ⟨40, 24, 5, 5⟩ (by decide)).2.2 exampleByteFormat
      [exampleFile, exampleDir] (by decide)⟩

/-- C10 as stated fails. At terminal width 40, with eleven file nodes named `f`
of size 1 and selection 0, whatever the value of `LOWER_BUFFER` (terminal height
`LOWER_BUFFER + 19`), `CreateDirectoryList` returns the eleven labelled lines;
the size suffix `1 B` starts at byte 24 of the line of entry 9 and at byte 25 of
the line of entry 10, so it does not start at the same column in every file
entry. -/
theorem CreateDirectoryList_size_column_shifts :
    (∀ LB : Int, ∃ a,
      CreateDirectoryList ⟨40, LB + 19, LB, 5⟩ exampleByteFormat (ascii "dir") elevenFiles 0 =
        .ok a ∧
      a.rendered = none ∧
      a.list.Items[9]? = some (ascii "[9] f                   " ++ exampleByteFormat 1) ∧
      a.list.Items[10]? = some (ascii "[10] f                   " ++ exampleByteFormat 1)) ∧
    len (ascii "[9] f                   ") = 24 ∧
    len (ascii "[10] f                   ") = 25 ∧
    ¬ ∃ (LB : Int) (a : Assembled) (col : Int),
      CreateDirectoryList ⟨40, LB + 19, LB, 5⟩ exampleByteFormat (ascii "dir") elevenFiles 0 =
        .ok a ∧
      (∃ pre, a.list.Items[9]? = some (pre ++ exampleByteFormat 1) ∧ len pre = col) ∧
      (∃ pre, a.list.Items[10]? = some (pre ++ exampleByteFormat 1) ∧ len pre = col) := by
  have hd : ∀ LB : Int,
      displayLoop ⟨40, LB + 19, LB, 5⟩ exampleByteFormat elevenFiles [] =
        .ok (List.replicate 11 (ascii "f                   " ++ exampleByteFormat 1)) := by
    intro LB
    rfl
  have hh : ∀ LB : Int,
      GetStringListHeight ⟨40, LB + 19, LB, 5⟩
        (List.replicate 11 (ascii "f                   " ++ exampleByteFormat 1)) = 13 := by
    intro LB
    simp [GetStringListHeight, len]
  have hg : ∀ LB : Int,
      GetDirectoryDisplayListing ⟨40, LB + 19, LB, 5⟩
        (List.replicate 11 (ascii "f                   " ++ exampleByteFormat 1)) 0 =
        .ok (labelled 0 0 (List.replicate 11 (ascii "f                   " ++ exampleByteFormat 1)), none) := by
    intro LB
    rw [GetDirectoryDisplayListing_eq, hh]
    rfl
  have hc : ∀ LB : Int,
      CreateDirectoryList ⟨40, LB + 19, LB, 5⟩ exampleByteFormat (ascii "dir") elevenFiles 0 =
        .ok ⟨⟨labelled 0 0 (List.replicate 11 (ascii "f                   " ++ exampleByteFormat 1)),
          Color.yellow, ascii "dir", GetNodeListHeight ⟨40, LB + 19, LB, 5⟩ elevenFiles,
          40 - 5, 0⟩, none⟩ := by
    intro LB
    unfold CreateDirectoryList
    rw [hd]
    simp only [hg]
  refine ⟨fun LB => ⟨_, hc LB, rfl, by rfl, by rfl⟩, by decide, by decide, ?_⟩
  rintro ⟨LB, a, col, h, ⟨pre9, h9, l9⟩, ⟨pre10, h10, l10⟩⟩
  rw [hc] at h
  simp only [Except.ok.injEq] at h
  rw [← h] at h9 h10
  have e9 : (labelled 0 0 (List.replicate 11 (ascii "f                   " ++ exampleByteFormat 1)))[9]? =
      some (ascii "[9] f                   " ++ exampleByteFormat 1) := by rfl
  have e10 : (labelled 0 0 (List.replicate 11 (ascii "f                   " ++ exampleByteFormat 1)))[10]? =
      some (ascii "[10] f                   " ++ exampleByteFormat 1) := by rfl
  simp only at h9 h10
  rw [e9] at h9
  rw [e10] at h10
  simp only [Option.some.injEq] at h9 h10
  have n9 := congrArg List.length h9
  have n10 := congrArg List.length h10
  have k9 : (ascii "[9] f                   ").length = 24 := by decide
  have k10 : (ascii "[10] f                   ").length = 25 := by decide
  rw [List.length_append, List.length_append, k9] at n9
  rw [List.length_append, List.length_append, k10] at n10
  unfold len at l9 l10
  omega

end S3Explorer
